import Mathlib

/-!
Shallow embedding of the cities-pollution-api validation and enrichment
pipeline: the record classifier (src/utils/dataValidator.js), the
Wikipedia enrichment service (src/services/wikipediaService.js) and the
in-memory TTL cache (MemoryCache).  JavaScript numbers are modelled as an
inductive over the rationals with explicit NaN and infinities; JavaScript
values as a small inductive of the JSON-like shapes the pipeline handles.
-/

/-! ## Characters and strings -/

/-- Character class of the whitespace characters recognised by the regex
class backslash-s and by trim: tab, LF, VT, FF, CR and space. -/
def isWS (c : Char) : Bool :=
  c.toNat == 9 || c.toNat == 10 || c.toNat == 11 || c.toNat == 12 ||
  c.toNat == 13 || c.toNat == 32

/-- Character class of the regex range 0-9. -/
def isDigitChar (c : Char) : Bool :=
  48 ≤ c.toNat && c.toNat ≤ 57

/-- Character class of the regex ranges a-z and A-Z. -/
def isAsciiLetter (c : Char) : Bool :=
  (65 ≤ c.toNat && c.toNat ≤ 90) || (97 ≤ c.toNat && c.toNat ≤ 122)

/-- Character class of the regex range A-Z. -/
def isAsciiUpper (c : Char) : Bool :=
  65 ≤ c.toNat && c.toNat ≤ 90

/-- Numeric value of a digit character. -/
def charDigitVal (c : Char) : ℕ := c.toNat - 48

/-- The digit character for a value below ten. -/
def digitChar (n : ℕ) : Char :=
  match n with
  | 0 => '0' | 1 => '1' | 2 => '2' | 3 => '3' | 4 => '4'
  | 5 => '5' | 6 => '6' | 7 => '7' | 8 => '8' | _ => '9'

/-- Lowercased character list, modelling String.prototype.toLowerCase. -/
def lowerChars (cs : List Char) : List Char := cs.map Char.toLower

/-- Build a string back from its character list. -/
def strOfChars (cs : List Char) : String := ⟨cs⟩

/-- Lowercased string. -/
def lowerStr (s : String) : String := strOfChars (lowerChars s.data)

/-- Both-ends whitespace trimming, modelling String.prototype.trim. -/
def trimChars (cs : List Char) : List Char :=
  ((cs.dropWhile isWS).reverse.dropWhile isWS).reverse

/-- Trimmed string. -/
def strTrim (s : String) : String := strOfChars (trimChars s.data)

/-- Does the second list start with the first? -/
def startsWithChars : List Char → List Char → Bool
  | [], _ => true
  | _ :: _, [] => false
  | a :: as, b :: bs => a == b && startsWithChars as bs

/-- Does the second list end with the first? -/
def endsWithChars (suffix cs : List Char) : Bool :=
  startsWithChars suffix.reverse cs.reverse

/-- Substring containment, modelling String.prototype.includes. -/
def hasSubstr (needle : List Char) : List Char → Bool
  | [] => needle.isEmpty
  | c :: rest => startsWithChars needle (c :: rest) || hasSubstr needle rest

/-- Index of the last occurrence of a character, -1 when absent,
modelling String.prototype.lastIndexOf for a single character. -/
def lastIndexOfChar (c : Char) : List Char → Int
  | [] => -1
  | x :: xs =>
    let r := lastIndexOfChar c xs
    if 0 ≤ r then r + 1
    else if x == c then 0 else -1

/-- Value of a digit list read in base ten. -/
def digitsVal (cs : List Char) : ℕ :=
  cs.foldl (fun a c => 10 * a + charDigitVal c) 0

/-- Base-ten digit list of a natural number, most significant first. -/
def natDigits (n : ℕ) : List Char :=
  if _h : n < 10 then [digitChar n]
  else natDigits (n / 10) ++ [digitChar (n % 10)]
decreasing_by exact Nat.div_lt_self (by omega) (by omega)

/-- Exactly k base-ten digits of n (its value modulo 10 ^ k), zero padded. -/
def natDigitsPadded : ℕ → ℕ → List Char
  | 0, _ => []
  | k + 1, n => natDigitsPadded k (n / 10) ++ [digitChar (n % 10)]

/-! ## JavaScript values -/

/-- A JavaScript number: NaN, the two infinities, or a finite value
modelled as a rational. -/
inductive JSNum where
  | nan
  | inf
  | ninf
  | fin (q : ℚ)
deriving DecidableEq

/-- The JSON-like JavaScript values flowing through the pipeline. -/
inductive JSVal where
  | undefined
  | null
  | bool (b : Bool)
  | number (n : JSNum)
  | str (s : String)
  | obj (fields : List (String × JSVal))
  | arr (elems : List JSVal)

/-- JavaScript truthiness. -/
def jsToBool : JSVal → Bool
  | .undefined => false
  | .null => false
  | .bool b => b
  | .number .nan => false
  | .number (.fin q) => !(q == 0)
  | .number _ => true
  | .str s => !s.isEmpty
  | .obj _ => true
  | .arr _ => true

/-- Does typeof yield the string object?  True for null, plain objects
and arrays. -/
def isObjectType : JSVal → Bool
  | .null => true
  | .obj _ => true
  | .arr _ => true
  | _ => false

/-- Array.isArray. -/
def isArrayVal : JSVal → Bool
  | .arr _ => true
  | _ => false

/-- Property read on an object; undefined on a missing key or a
non-object receiver (the pipeline only reads fields after an object
check). -/
def getField : JSVal → String → JSVal
  | .obj fields, k => ((fields.lookup k).getD .undefined)
  | _, _ => .undefined

/-- Is the value undefined or null? -/
def isUndefOrNull : JSVal → Bool
  | .undefined => true
  | .null => true
  | _ => false

/-! ## Number parsing and printing -/

/-- Parse an optional exponent suffix e or E with optional sign; returns
the exponent and the remaining input.  A bare e with no digits is left
unconsumed, as in parseFloat. -/
def parseExpPart (cs : List Char) : Int × List Char :=
  if cs.head? == some 'e' || cs.head? == some 'E' then
    let r := cs.tail
    let eneg := r.head? == some '-'
    let r2 := if r.head? == some '-' || r.head? == some '+' then r.tail else r
    let ds := r2.takeWhile isDigitChar
    if ds.isEmpty then (0, cs)
    else ((if eneg then -(digitsVal ds : Int) else (digitsVal ds : Int)), r2.dropWhile isDigitChar)
  else (0, cs)

/-- Parse an unsigned decimal literal (digits, optional fraction,
optional exponent); none when no digit is present on either side of the
point.  Returns the value and the remaining input. -/
def parseUnsigned (cs : List Char) : Option (ℚ × List Char) :=
  let intDs := cs.takeWhile isDigitChar
  let rest := cs.dropWhile isDigitChar
  let hasDot := rest.head? == some '.'
  let fracDs := if hasDot then rest.tail.takeWhile isDigitChar else []
  let rest2 := if hasDot then rest.tail.dropWhile isDigitChar else rest
  if intDs.isEmpty && fracDs.isEmpty then none
  else
    let ep := parseExpPart rest2
    some (((digitsVal intDs : ℚ) + (digitsVal fracDs : ℚ) / (10 : ℚ) ^ fracDs.length) *
            (10 : ℚ) ^ ep.1, ep.2)

/-- The global parseFloat: skip leading whitespace, optional sign,
Infinity or a decimal prefix; NaN when no numeric prefix exists. -/
def parseFloatChars (cs0 : List Char) : JSNum :=
  let cs1 := cs0.dropWhile isWS
  let neg := cs1.head? == some '-'
  let cs2 := if cs1.head? == some '-' || cs1.head? == some '+' then cs1.tail else cs1
  if startsWithChars "Infinity".data cs2 then (if neg then .ninf else .inf)
  else
    match parseUnsigned cs2 with
    | none => .nan
    | some vr => .fin (if neg then -vr.1 else vr.1)

/-- The Number() string conversion: empty after trimming is zero;
otherwise the whole remaining input must be a signed decimal literal or
Infinity (hexadecimal and other exotic literal forms are not modelled;
no claim exercises them). -/
def numberFromString (s : String) : JSNum :=
  let t := trimChars s.data
  if t.isEmpty then .fin 0
  else
    let neg := t.head? == some '-'
    let t2 := if t.head? == some '-' || t.head? == some '+' then t.tail else t
    if t2 == "Infinity".data then (if neg then .ninf else .inf)
    else
      match parseUnsigned t2 with
      | some (v, []) => .fin (if neg then -v else v)
      | _ => .nan

/-- Smallest k with den dividing 10 ^ k, searched far beyond the 1074
binary fraction digits a double can carry. -/
def pow10Exp (den : ℕ) : Option ℕ :=
  (List.range 1101).find? (fun k => 10 ^ k % den == 0)

/-- Number-to-string conversion for the numbers the pipeline prints:
integers and finite decimals exactly; a finite rational whose reduced
denominator is not of the form 2 ^ a * 5 ^ b is not representable as a
binary double, so that branch is unreachable from JavaScript values. -/
def jsNumToString : JSNum → String
  | .nan => "NaN"
  | .inf => "Infinity"
  | .ninf => "-Infinity"
  | .fin q =>
    let sgn := if q < 0 then "-" else ""
    let a := q.num.natAbs
    if q.den = 1 then sgn ++ strOfChars (natDigits a)
    else
      match pow10Exp q.den with
      | some k =>
        let scaled := a * (10 ^ k / q.den)
        sgn ++ strOfChars (natDigits (scaled / 10 ^ k) ++
          '.' :: natDigitsPadded k (scaled % 10 ^ k))
      | none => "0"

/-- String() conversion of the non-container values. -/
def jsToStringAtom : JSVal → String
  | .undefined => "undefined"
  | .null => "null"
  | .bool b => if b then "true" else "false"
  | .number n => jsNumToString n
  | .str s => s
  | .obj _ => "[object Object]"
  | .arr _ => ""

/-- String() conversion of an array element inside a join: null and
undefined elements become empty. -/
def jsJoinElem (v : JSVal) : String :=
  match v with
  | .undefined => ""
  | .null => ""
  | w => jsToStringAtom w

/-- String() conversion.  Arrays join their elements with commas one
level deep (nested containers inside an array are not modelled; no claim
exercises them). -/
def jsToString : JSVal → String
  | .arr vs => String.intercalate "," (vs.map jsJoinElem)
  | v => jsToStringAtom v

/-- Number() conversion.  For non-string non-number arguments this is
the coercion applied by isNaN, isFinite and the relational operators.
Non-empty array coercion beyond the empty array goes through a string
join and is modelled as NaN for the multi-element shapes no claim
exercises. -/
def jsToNumber : JSVal → JSNum
  | .undefined => .nan
  | .null => .fin 0
  | .bool b => .fin (if b then 1 else 0)
  | .number n => n
  | .str s => numberFromString s
  | .obj _ => .nan
  | .arr [] => .fin 0
  | .arr (.number n :: []) => n
  | .arr (.str s :: []) => numberFromString s
  | .arr _ => .nan

/-! ## Record classifier (src/utils/dataValidator.js) -/

/-- Pattern 1 of invalidPatterns: pure numbers, one or more digits. -/
def patPureDigits (t : List Char) : Bool := !t.isEmpty && t.all isDigitChar

/-- Pattern 2: no letters at all. -/
def patNoLetters (t : List Char) : Bool := t.all (fun c => !isAsciiLetter c)

/-- Pattern 3: empty or whitespace only. -/
def patWhitespaceOnly (t : List Char) : Bool := t.all isWS

/-- Pattern 4: test-data indicator tokens, case insensitive, whole string. -/
def patTestTokens (t : List Char) : Bool :=
  let low := lowerChars t
  low == "test".data || low == "sample".data || low == "dummy".data || low == "fake".data

/-- Pattern 5: null indicator tokens, case insensitive, whole string. -/
def patNullTokens (t : List Char) : Bool :=
  let low := lowerChars t
  low == "n/a".data || low == "null".data || low == "undefined".data

/-- The characters of pattern 6. -/
def specialOnlyChars : List Char := "<>\x7b\x7d[]()".data

/-- Pattern 6: special characters only, one or more. -/
def patSpecialOnly (t : List Char) : Bool :=
  !t.isEmpty && t.all (fun c => specialOnlyChars.contains c)

/-- Pattern 7: ends in an administrative-division suffix, case insensitive. -/
def patAdminSuffix (t : List Char) : Bool :=
  let low := lowerChars t
  endsWithChars "region".data low || endsWithChars "province".data low ||
  endsWithChars "state".data low || endsWithChars "county".data low ||
  endsWithChars "district".data low

/-- Does any of the seven invalidPatterns match the trimmed string? -/
def matchesInvalidPatterns (t : List Char) : Bool :=
  patPureDigits t || patNoLetters t || patWhitespaceOnly t || patTestTokens t ||
  patNullTokens t || patSpecialOnly t || patAdminSuffix t

/-- The suspiciousWords list. -/
def suspiciousWords : List (List Char) :=
  ["ocean".data, "sea".data, "river".data, "lake".data, "mountain".data,
   "desert".data, "forest".data, "airport".data, "station".data, "port".data,
   "base".data, "facility".data, "region".data, "area".data, "zone".data,
   "sector".data, "district".data]

/-- isValidCityName on a string argument.  The single-token test models
the source comparison of the whitespace split length with one, which for
a trimmed non-empty string holds exactly when no whitespace occurs. -/
def isValidCityNameStr (s : String) : Bool :=
  let trimmedName := trimChars s.data
  if trimmedName.length < 1 || 100 < trimmedName.length then false
  else if matchesInvalidPatterns trimmedName then false
  else
    let lowerName := lowerChars trimmedName
    if (suspiciousWords.any (fun w => hasSubstr w lowerName)) &&
        trimmedName.all (fun c => !isWS c) then false
    else if !trimmedName.any isAsciiLetter then false
    else
      let letterCount := trimmedName.countP isAsciiLetter
      let numberCount := trimmedName.countP isDigitChar
      if letterCount < numberCount then false
      else true

/-- isValidCityName: a non-string argument fails the typeof check. -/
def isValidCityName : JSVal → Bool
  | .str s => isValidCityNameStr s
  | _ => false

/-- The validCountryCodes allowlist. -/
def validCountryCodes : List String :=
  ["AD", "AE", "AF", "AG", "AI", "AL", "AM", "AO", "AQ", "AR", "AS", "AT",
   "AU", "AW", "AX", "AZ", "BA", "BB", "BD", "BE", "BF", "BG", "BH", "BI",
   "BJ", "BL", "BM", "BN", "BO", "BQ", "BR", "BS", "BT", "BV", "BW", "BY",
   "BZ", "CA", "CC", "CD", "CF", "CG", "CH", "CI", "CK", "CL", "CM", "CN",
   "CO", "CR", "CU", "CV", "CW", "CX", "CY", "CZ", "DE", "DJ", "DK", "DM",
   "DO", "DZ", "EC", "EE", "EG", "EH", "ER", "ES", "ET", "FI", "FJ", "FK",
   "FM", "FO", "FR", "GA", "GB", "GD", "GE", "GF", "GG", "GH", "GI", "GL",
   "GM", "GN", "GP", "GQ", "GR", "GS", "GT", "GU", "GW", "GY", "HK", "HM",
   "HN", "HR", "HT", "HU", "ID", "IE", "IL", "IM", "IN", "IO", "IQ", "IR",
   "IS", "IT", "JE", "JM", "JO", "JP", "KE", "KG", "KH", "KI", "KM", "KN",
   "KP", "KR", "KW", "KY", "KZ", "LA", "LB", "LC", "LI", "LK", "LR", "LS",
   "LT", "LU", "LV", "LY", "MA", "MC", "MD", "ME", "MF", "MG", "MH", "MK",
   "ML", "MM", "MN", "MO", "MP", "MQ", "MR", "MS", "MT", "MU", "MV", "MW",
   "MX", "MY", "MZ", "NA", "NC", "NE", "NF", "NG", "NI", "NL", "NO", "NP",
   "NR", "NU", "NZ", "OM", "PA", "PE", "PF", "PG", "PH", "PK", "PL", "PM",
   "PN", "PR", "PS", "PT", "PW", "PY", "QA", "RE", "RO", "RS", "RU", "RW",
   "SA", "SB", "SC", "SD", "SE", "SG", "SH", "SI", "SJ", "SK", "SL", "SM",
   "SN", "SO", "SR", "SS", "ST", "SV", "SX", "SY", "SZ", "TC", "TD", "TF",
   "TG", "TH", "TJ", "TK", "TL", "TM", "TN", "TO", "TR", "TT", "TV", "TW",
   "TZ", "UA", "UG", "UM", "US", "UY", "UZ", "VA", "VC", "VE", "VG", "VI",
   "VN", "VU", "WF", "WS", "YE", "YT", "ZA", "ZM", "ZW"]

/-- isValidCountry on a string argument. -/
def isValidCountryStr (s : String) : Bool :=
  let trimmedCountry := trimChars s.data
  if trimmedCountry.length < 2 || 100 < trimmedCountry.length then false
  else if matchesInvalidPatterns trimmedCountry then false
  else if trimmedCountry.length == 2 && trimmedCountry.all isAsciiUpper then
    validCountryCodes.contains (strOfChars trimmedCountry)
  else if !trimmedCountry.any isAsciiLetter then false
  else true

/-- isValidCountry: a non-string argument fails the typeof check. -/
def isValidCountry : JSVal → Bool
  | .str s => isValidCountryStr s
  | _ => false

/-- isValidPollutionValue.  A string is first put through parseFloat;
any other value reaches isNaN, isFinite and the range comparisons, all
of which coerce it through Number(). -/
def isValidPollutionValue (pollution : JSVal) : Bool :=
  let numericValue : JSNum :=
    match pollution with
    | .str s => parseFloatChars s.data
    | v => jsToNumber v
  match numericValue with
  | .fin q => if q < 0 || 1000 < q then false else true
  | _ => false

/-- isValidCity: the top-level acceptance gate.  The country field is
destructured in the source but never tested. -/
def isValidCity (entry : JSVal) : Bool :=
  if !jsToBool entry || !isObjectType entry then false
  else
    let name := getField entry "name"
    let pollution := getField entry "pollution"
    if !jsToBool name || isUndefOrNull pollution then false
    else if !isValidCityName name then false
    else if !isValidPollutionValue pollution then false
    else true

/-- The normalized record produced from an accepted raw record. -/
structure NormalizedCity where
  name : String
  country : String
  pollution : JSNum

/-- normalizeCity: String(...).trim() on name and country, parseFloat on
pollution (whose argument is itself coerced to a string first). -/
def normalizeCity (city : JSVal) : NormalizedCity :=
  { name := strTrim (jsToString (getField city "name"))
  , country := strTrim (jsToString (getField city "country"))
  , pollution := parseFloatChars (jsToString (getField city "pollution")).data }

/-- filterValidCities: a non-array input yields the empty list; an array
is folded in order, keeping the normalized form of each accepted entry. -/
def filterValidCities (rawData : JSVal) : List NormalizedCity :=
  match rawData with
  | .arr entries =>
    entries.foldl
      (fun validCities entry =>
        if isValidCity entry then validCities ++ [normalizeCity entry] else validCities)
      []
  | _ => []

/-! ## Wikipedia enrichment service (src/services/wikipediaService.js) -/

/-- The minimum spacing between outbound requests, in milliseconds. -/
def minRequestInterval : ℕ := 100

/-- The extract clean-up of _processQueue: trim; when longer than 300,
take the first 300 characters, trim again, and either cut just after the
last period when its index exceeds 200 or append an ellipsis. -/
def cleanExtract (raw : List Char) : List Char :=
  let extract := trimChars raw
  if 300 < extract.length then
    let extract2 := trimChars (extract.take 300)
    let lastPeriod := lastIndexOfChar '.' extract2
    if 200 < lastPeriod then extract2.take (lastPeriod.toNat + 1)
    else extract2 ++ "...".data
  else extract

/-- The description cache key: wiki_city_country, lowercased. -/
def descCacheKey (cityName countryName : String) : String :=
  lowerStr ("wiki_" ++ cityName ++ "_" ++ countryName)

/-- Replace-or-append update of an association list, modelling Map.set. -/
def assocSet {α : Type} (l : List (String × α)) (k : String) (v : α) : List (String × α) :=
  match l with
  | [] => [(k, v)]
  | (k2, v2) :: rest => if k2 == k then (k, v) :: rest else (k2, v2) :: assocSet rest k v

/-- Remove a key from an association list, modelling Map.delete. -/
def assocErase {α : Type} (l : List (String × α)) (k : String) : List (String × α) :=
  match l with
  | [] => []
  | (k2, v2) :: rest => if k2 == k then rest else (k2, v2) :: assocErase rest k

/-- What the external summary endpoint does with one dispatched request:
a response whose extract field is present, a response without it, a 404,
or any other failure. -/
inductive FetchOutcome where
  | ok (extract : Option (List Char))
  | notFound
  | err

/-- The value a queued request settles with, following _processQueue: a
present non-empty extract resolves to its cleaned form, an absent or
empty extract resolves to null, a 404 resolves to null, and any other
error rejects. -/
def fetchResult (o : FetchOutcome) : Except Unit (Option (List Char)) :=
  match o with
  | .ok (some e) => if e.isEmpty then .ok none else .ok (some (cleanExtract e))
  | .ok none => .ok none
  | .notFound => .ok none
  | .err => .error ()

/-- The ordered query-term variants of getCityDescription. -/
def searchTerms (cityName countryName : String) : List String :=
  [cityName, cityName ++ ", " ++ countryName, cityName ++ " " ++ countryName]

/-- The variant loop of getCityDescription, with the outcome of the
i-th dispatched request supplied by an oracle.  Returns the first usable
description (none when the variants exhaust) together with the list of
search terms actually dispatched, in order.  A request that rejects is
caught and the loop continues with the next variant. -/
def tryVariants (outcomes : ℕ → FetchOutcome) : List String → ℕ → Option (List Char) × List String
  | [], _ => (none, [])
  | term :: rest, i =>
    match fetchResult (outcomes i) with
    | .ok (some d) =>
      if !d.isEmpty then (some d, [term])
      else
        let r := tryVariants outcomes rest (i + 1)
        (r.1, term :: r.2)
    | .ok none =>
      let r := tryVariants outcomes rest (i + 1)
      (r.1, term :: r.2)
    | .error _ =>
      let r := tryVariants outcomes rest (i + 1)
      (r.1, term :: r.2)

/-- getCityDescription over an explicit description cache, returning the
produced value (the description string, null, or a cache hit), the
search terms dispatched outbound, and the cache afterwards.  A found
description is cached (in the source with a 24 hour TTL), an exhausted
lookup caches null (in the source with a 1 hour TTL); the TTL durations
play no part in the claims settled against this function. -/
def getCityDescription (cache0 : List (String × JSVal)) (cityName countryName : String)
    (outcomes : ℕ → FetchOutcome) : JSVal × List String × List (String × JSVal) :=
  let cacheKey := descCacheKey cityName countryName
  let cachedDescription := (cache0.lookup cacheKey).getD .undefined
  if jsToBool cachedDescription then (cachedDescription, [], cache0)
  else
    match tryVariants outcomes (searchTerms cityName countryName) 0 with
    | (some d, reqs) => (.str (strOfChars d), reqs, assocSet cache0 cacheKey (.str (strOfChars d)))
    | (none, reqs) => (.null, reqs, assocSet cache0 cacheKey .null)

/-! ## The TTL cache (MemoryCache) -/

/-- The state of a MemoryCache instance: the value map, the pending
expiration timers as absolute firing times, and the current clock. -/
structure CacheState where
  cache : List (String × JSVal)
  timers : List (String × ℕ)
  now : ℕ

/-- A fresh cache at clock zero. -/
def emptyCacheState : CacheState := ⟨[], [], 0⟩

/-- MemoryCache.set: cancel and forget any existing timer for the key,
write the value, and when a positive TTL is supplied schedule a removal
at now plus TTL. -/
def cacheSetOp (s : CacheState) (key : String) (value : JSVal) (ttl : Option ℕ) : CacheState :=
  let timers := assocErase s.timers key
  let cache := assocSet s.cache key value
  match ttl with
  | some t => if 0 < t then ⟨cache, timers ++ [(key, s.now + t)], s.now⟩ else ⟨cache, timers, s.now⟩
  | none => ⟨cache, timers, s.now⟩

/-- MemoryCache.delete: cancel any timer for the key and remove the
entry, reporting whether it existed. -/
def cacheDeleteOp (s : CacheState) (key : String) : Bool × CacheState :=
  let timers := assocErase s.timers key
  ((s.cache.lookup key).isSome, ⟨assocErase s.cache key, timers, s.now⟩)

/-- MemoryCache.get: no side effects. -/
def cacheGetOp (s : CacheState) (key : String) : Option JSVal :=
  s.cache.lookup key

/-- Let a duration pass: advance the clock and fire every due timer,
each firing running MemoryCache.delete on its key. -/
def elapse (s : CacheState) (t : ℕ) : CacheState :=
  let now2 := s.now + t
  let due := (s.timers.filter (fun kv => kv.2 ≤ now2)).map Prod.fst
  due.foldl (fun st k => (cacheDeleteOp st k).2) ⟨s.cache, s.timers, now2⟩

/-! ## The request queue of the enrichment service as a transition system -/

/-- Where the single drain loop of _processQueue stands: no loop
running, awaiting the outbound request for one queued item, or awaiting
the pacing delay that ends at the recorded wake time. -/
inductive DrainPhase where
  | idle
  | inFlight (id : ℕ)
  | delaying (wake : ℕ)
deriving DecidableEq

/-- The observable state of the service queue: the pending backlog, the
isProcessing flag, the drain phase, the clock, the chronological record
of dispatched requests with their dispatch times, and the chronological
record of enqueued requests. -/
structure QueueState where
  requestQueue : List ℕ
  isProcessing : Bool
  phase : DrainPhase
  now : ℕ
  dispatches : List (ℕ × ℕ)
  enqueued : List ℕ

/-- The initial queue state. -/
def initQ : QueueState :=
  ⟨[], false, .idle, 0, [], []⟩

/-- How many outbound lookups are in flight. -/
def inFlightCount (s : QueueState) : ℕ :=
  match s.phase with
  | .inFlight _ => 1
  | _ => 0

/-- One cooperative step of the service.  _fetchDescriptionByTitle
pushes onto the backlog and calls _processQueue, which returns at once
when isProcessing is set and otherwise starts the drain loop by shifting
and dispatching the head; a dispatched request later settles, after
which the loop awaits the pacing delay; when the delay fires the loop
shifts and dispatches the next item or, on an empty backlog, clears
isProcessing and exits.  Time never decreases across steps. -/
inductive QStep : QueueState → QueueState → Prop where
  | enqueueIdle (s : QueueState) (id t : ℕ) (ht : s.now ≤ t) (hp : s.isProcessing = false) :
      QStep s { requestQueue := (s.requestQueue ++ [id]).tail
              , isProcessing := true
              , phase := .inFlight ((s.requestQueue ++ [id]).headD 0)
              , now := t
              , dispatches := s.dispatches ++ [((s.requestQueue ++ [id]).headD 0, t)]
              , enqueued := s.enqueued ++ [id] }
  | enqueueBusy (s : QueueState) (id t : ℕ) (ht : s.now ≤ t) (hp : s.isProcessing = true) :
      QStep s { s with requestQueue := s.requestQueue ++ [id]
                     , now := t
                     , enqueued := s.enqueued ++ [id] }
  | complete (s : QueueState) (id t : ℕ) (ht : s.now ≤ t) (hp : s.phase = .inFlight id) :
      QStep s { s with phase := .delaying (t + minRequestInterval), now := t }
  | wakeDispatch (s : QueueState) (w t h : ℕ) (tl : List ℕ) (ht : w ≤ t)
      (hw : s.phase = .delaying w) (hq : s.requestQueue = h :: tl) :
      QStep s { requestQueue := tl
              , isProcessing := s.isProcessing
              , phase := .inFlight h
              , now := t
              , dispatches := s.dispatches ++ [(h, t)]
              , enqueued := s.enqueued }
  | wakeIdle (s : QueueState) (w t : ℕ) (ht : w ≤ t)
      (hw : s.phase = .delaying w) (hq : s.requestQueue = []) :
      QStep s { s with isProcessing := false, phase := .idle, now := t }

/-- The states the service can reach from start-up. -/
inductive QReach : QueueState → Prop where
  | init : QReach initQ
  | step {s s2 : QueueState} : QReach s → QStep s s2 → QReach s2

-- helper: name predicate fails whenever an invalid pattern matches
theorem validNameStr_false_of_pattern (s : String)
    (h : matchesInvalidPatterns (trimChars s.data) = true) : isValidCityNameStr s = false := by
  simp [isValidCityNameStr, h]

-- helper: isValidCity characterization
theorem isValidCity_eq (e : JSVal) :
    isValidCity e =
      (isObjectType e && jsToBool e && jsToBool (getField e "name") &&
        !isUndefOrNull (getField e "pollution") && isValidCityName (getField e "name") &&
        isValidPollutionValue (getField e "pollution")) := by
  unfold isValidCity
  cases h1 : jsToBool e <;> cases h2 : isObjectType e <;>
    cases h3 : jsToBool (getField e "name") <;> cases h4 : isUndefOrNull (getField e "pollution") <;>
      cases h5 : isValidCityName (getField e "name") <;>
        cases h6 : isValidPollutionValue (getField e "pollution") <;>
          simp [h1, h2, h3, h4, h5, h6]

def isPunctChar (c : Char) : Bool := !isAsciiLetter c && !isDigitChar c && !isWS c

def purelyNumeric (t : List Char) : Bool := !t.isEmpty && t.all isDigitChar

def purelyPunctuation (t : List Char) : Bool := !t.isEmpty && t.all isPunctChar

def placeholderToken (t : List Char) : Bool :=
  ["test".data, "sample".data, "dummy".data, "fake".data, "n/a".data, "null".data,
   "undefined".data].contains (lowerChars t)

theorem patterns_of_conditions (t : List Char)
    (h : (purelyNumeric t || purelyPunctuation t || placeholderToken t) = true) :
    matchesInvalidPatterns t = true := by
  unfold matchesInvalidPatterns
  rcases Bool.or_eq_true_iff.mp h with h1 | h2
  · rcases Bool.or_eq_true_iff.mp h1 with hn | hp
    · have hd : patPureDigits t = true := by
        unfold patPureDigits
        unfold purelyNumeric at hn
        exact hn
      simp [hd]
    · unfold purelyPunctuation at hp
      simp at hp
      have : patNoLetters t = true := by
        unfold patNoLetters
        simp
        intro c hc
        have := hp.2 c hc
        unfold isPunctChar at this
        simp at this
        exact this.1.1
      simp [this]
  · unfold placeholderToken at h2
    simp [List.contains] at h2
    rcases h2 with h | h | h | h | h | h | h <;>
      simp [patTestTokens, patNullTokens, h]

/-- Claim C7: a record whose name trims to a purely numeric string, a purely punctuation
string, or a case insensitive placeholder token is rejected by the classifier. -/
theorem c7_rejects_placeholder_names (e : JSVal) (s : String)
    (hn : getField e "name" = .str s)
    (hc : (purelyNumeric (trimChars s.data) || purelyPunctuation (trimChars s.data) ||
            placeholderToken (trimChars s.data)) = true) :
    isValidCity e = false := by
  have hv : isValidCityName (.str s) = false := by
    simp [isValidCityName, validNameStr_false_of_pattern s (patterns_of_conditions _ hc)]
  rw [isValidCity_eq, hn]
  simp [hv]

/-- Witness for claim C7 at the placeholder name n/a. -/
theorem c7_rejects_placeholder_names_witness :
    isValidCity (.obj [("name", .str "n/a"), ("pollution", .number (.fin 5))]) = false :=
  c7_rejects_placeholder_names (.obj [("name", .str "n/a"), ("pollution", .number (.fin 5))]) "n/a" rfl (by decide)

-- C6 helper pieces
theorem pollution_num_iff (q : ℚ) :
    isValidPollutionValue (.number (.fin q)) = true ↔ (0 ≤ q ∧ q ≤ 1000) := by
  unfold isValidPollutionValue jsToNumber
  by_cases h1 : q < 0
  · simp [h1]
  · by_cases h2 : 1000 < q
    · simp [h1, h2]
    · simp [h1, h2]
      constructor <;> linarith

theorem pollution_str_eq (s : String) :
    isValidPollutionValue (.str s) =
      (match parseFloatChars s.data with
       | JSNum.fin q => if q < 0 || 1000 < q then false else true
       | _ => false) := rfl

theorem pollution_str_iff (s : String) (q : ℚ) (hp : parseFloatChars s.data = .fin q) :
    isValidPollutionValue (.str s) = true ↔ (0 ≤ q ∧ q ≤ 1000) := by
  rw [pollution_str_eq, hp]
  by_cases h1 : q < 0
  · simp [h1]
  · by_cases h2 : 1000 < q
    · simp [h1, h2]
    · simp [h1, h2]
      constructor <;> linarith

theorem pollution_str_nonfin (s : String)
    (hp : parseFloatChars s.data = .nan ∨ parseFloatChars s.data = .inf ∨ parseFloatChars s.data = .ninf) :
    isValidPollutionValue (.str s) = false := by
  rw [pollution_str_eq]
  rcases hp with h | h | h <;> rw [h]

theorem record_pollution_iff (q : ℚ) :
    isValidCity (.obj [("name", .str "Berlin"), ("pollution", .number (.fin q))]) = true
      ↔ (0 ≤ q ∧ q ≤ 1000) := by
  rw [isValidCity_eq]
  rw [show getField (.obj [("name", .str "Berlin"), ("pollution", .number (.fin q))]) "name" = .str "Berlin" from rfl]
  rw [show getField (.obj [("name", .str "Berlin"), ("pollution", .number (.fin q))]) "pollution" = .number (.fin q) from rfl]
  rw [show isValidCityName (.str "Berlin") = true from (by decide)]
  simp only [isObjectType, jsToBool, isUndefOrNull, Bool.true_and, Bool.and_true, Bool.not_false,
    String.isEmpty]
  simp
  constructor
  · intro h
    exact (pollution_num_iff q).mp h.2
  · intro h
    exact ⟨by decide, (pollution_num_iff q).mpr h⟩

theorem dropWhileLenLe (p : Char → Bool) (l : List Char) : (l.dropWhile p).length ≤ l.length := by
  induction l with
  | nil => simp
  | cons x xs ih =>
    rw [List.dropWhile_cons]
    split
    · simp only [List.length_cons]
      omega
    · simp

theorem trimChars_length_le (cs : List Char) : (trimChars cs).length ≤ cs.length := by
  unfold trimChars
  calc ((cs.dropWhile isWS).reverse.dropWhile isWS).reverse.length
      = ((cs.dropWhile isWS).reverse.dropWhile isWS).length := List.length_reverse _
    _ ≤ (cs.dropWhile isWS).reverse.length := dropWhileLenLe _ _
    _ = (cs.dropWhile isWS).length := List.length_reverse _
    _ ≤ cs.length := dropWhileLenLe _ _

theorem lastIndexOf_getElem (c : Char) (l : List Char) (n : ℕ)
    (h : lastIndexOfChar c l = (n : Int)) : l[n]? = some c := by
  induction l generalizing n with
  | nil => simp [lastIndexOfChar] at h
  | cons x xs ih =>
    unfold lastIndexOfChar at h
    by_cases hr : 0 ≤ lastIndexOfChar c xs
    · rw [if_pos hr] at h
      obtain ⟨m, hm⟩ := Int.eq_ofNat_of_zero_le hr
      rw [hm] at h
      have hn : n = m + 1 := by omega
      subst hn
      simp
      exact ih m hm
    · rw [if_neg hr] at h
      by_cases hx : x == c
      · rw [if_pos hx] at h
        have hn : n = 0 := by omega
        subst hn
        simp
        exact (beq_iff_eq.mp hx)
      · rw [if_neg hx] at h
        omega

theorem startsWithChars_append (p t : List Char) : startsWithChars p (p ++ t) = true := by
  induction p with
  | nil => rfl
  | cons a as ih => simp [startsWithChars, ih]

theorem endsWithChars_append (l suf : List Char) : endsWithChars suf (l ++ suf) = true := by
  unfold endsWithChars
  rw [List.reverse_append]
  exact startsWithChars_append suf.reverse l.reverse

/-- Claim C2 (amended): for a trimmed extract longer than 300 characters, the cleaned
result has length at most 303 and ends with a period or with the ellipsis marker; the cut
happens at the last period of the 300 character prefix only when its index exceeds 200. -/
theorem c2_truncation_amended (raw : List Char) (h : 300 < (trimChars raw).length) :
    (cleanExtract raw).length ≤ 303 ∧
    (endsWithChars ['.'] (cleanExtract raw) = true ∨
      endsWithChars "...".data (cleanExtract raw) = true) := by
  unfold cleanExtract
  rw [if_pos h]
  have hp : (trimChars ((trimChars raw).take 300)).length ≤ 300 := by
    calc (trimChars ((trimChars raw).take 300)).length
        ≤ ((trimChars raw).take 300).length := trimChars_length_le _
      _ ≤ 300 := by simp
  set p := trimChars ((trimChars raw).take 300) with hpdef
  by_cases hcut : 200 < lastIndexOfChar '.' p
  · rw [if_pos hcut]
    have h0 : (0 : Int) ≤ lastIndexOfChar '.' p := by omega
    obtain ⟨m, hm⟩ := Int.eq_ofNat_of_zero_le h0
    have hget : p[m]? = some '.' := lastIndexOf_getElem '.' p m hm
    have hmlt : m < p.length := by
      by_contra hge
      rw [List.getElem?_eq_none (by omega)] at hget
      exact Option.noConfusion hget
    constructor
    · rw [hm]
      simp
      omega
    · left
      rw [hm, Int.toNat_ofNat]
      rw [List.take_succ, hget]
      exact endsWithChars_append (p.take m) ['.']
  · rw [if_neg hcut]
    constructor
    · simp
      omega
    · right
      exact endsWithChars_append p "...".data

def c2Input : List Char := List.replicate 100 'a' ++ '.' :: List.replicate 203 'b'

set_option maxRecDepth 40000 in
/-- Claim C2 counterexample: a 304 character extract whose only period sits at index 100
is truncated to 303 characters, exceeding the stated 300 bound, and the period before
character 200 is not used as the cut point. -/
theorem c2_truncation_counterexample :
    300 < c2Input.length
    ∧ (cleanExtract c2Input).length = 303
    ∧ lastIndexOfChar '.' (trimChars ((trimChars c2Input).take 300)) = 100
    ∧ cleanExtract c2Input ≠ c2Input.take 101 := by
  refine ⟨by decide, by decide, by decide, by decide⟩

set_option maxRecDepth 40000 in
/-- Witness for the amended claim C2 at a concrete 301 character extract. -/
theorem c2_truncation_amended_witness :
    300 < (trimChars (List.replicate 301 'a')).length
    ∧ ((cleanExtract (List.replicate 301 'a')).length ≤ 303 ∧
       (endsWithChars ['.'] (cleanExtract (List.replicate 301 'a')) = true ∨
         endsWithChars "...".data (cleanExtract (List.replicate 301 'a')) = true)) :=
  ⟨by decide, c2_truncation_amended (List.replicate 301 'a') (by decide)⟩

theorem tryVariants_error_cons (outcomes : ℕ → FetchOutcome) (term : String) (rest : List String)
    (i : ℕ) (h : fetchResult (outcomes i) = .error ()) :
    tryVariants outcomes (term :: rest) i =
      ((tryVariants outcomes rest (i + 1)).1, term :: (tryVariants outcomes rest (i + 1)).2) := by
  conv_lhs => unfold tryVariants
  rw [h]

theorem tryVariants_cons_head (outcomes : ℕ → FetchOutcome) (term : String) (rest : List String)
    (i : ℕ) :
    ∃ r tl, tryVariants outcomes (term :: rest) i = (r, term :: tl) := by
  unfold tryVariants
  cases h : fetchResult (outcomes i) with
  | error u => exact ⟨_, _, rfl⟩
  | ok v =>
    cases v with
    | none => exact ⟨_, _, rfl⟩
    | some d =>
      by_cases hd : d.isEmpty
      · simp only [hd]
        exact ⟨_, _, rfl⟩
      · simp only [hd]
        exact ⟨_, _, rfl⟩

theorem getCityDescription_requests (cache0 : List (String × JSVal)) (cityName countryName : String)
    (outcomes : ℕ → FetchOutcome)
    (h : jsToBool ((cache0.lookup (descCacheKey cityName countryName)).getD .undefined) = false) :
    (getCityDescription cache0 cityName countryName outcomes).2.1 =
      (tryVariants outcomes (searchTerms cityName countryName) 0).2 := by
  unfold getCityDescription
  simp only [h, Bool.false_eq_true, if_false]
  rcases htv : tryVariants outcomes (searchTerms cityName countryName) 0 with ⟨r, reqs⟩
  cases r <;> simp

-- C3 amended: any failure continues to the next variant
/-- Claim C3 (amended): a variant lookup that fails, with a not found response or with any
other error, makes the call continue to the next variant: after an error on the first
variant the second variant is still dispatched. -/
theorem c3_error_continues_amended (cityName countryName : String) (outcomes : ℕ → FetchOutcome)
    (h : fetchResult (outcomes 0) = .error ()) :
    ((getCityDescription [] cityName countryName outcomes).2.1).take 2 =
      [cityName, cityName ++ ", " ++ countryName] := by
  rw [getCityDescription_requests [] cityName countryName outcomes rfl]
  unfold searchTerms
  rw [tryVariants_error_cons outcomes _ _ 0 h]
  obtain ⟨r, tl, htv⟩ := tryVariants_cons_head outcomes (cityName ++ ", " ++ countryName)
    [cityName ++ " " ++ countryName] (0 + 1)
  rw [htv]
  rfl

/-- Witness for the amended claim C3 with every request failing. -/
theorem c3_error_continues_amended_witness :
    ((getCityDescription [] "Berlin" "Germany" (fun _ => FetchOutcome.err)).2.1).take 2 =
      ["Berlin", "Berlin, Germany"] :=
  c3_error_continues_amended "Berlin" "Germany" (fun _ => FetchOutcome.err) rfl

theorem dropWhile_head_not (p : Char → Bool) (l : List Char) (c : Char)
    (h : (l.dropWhile p).head? = some c) : p c = false := by
  induction l with
  | nil => simp at h
  | cons x xs ih =>
    rw [List.dropWhile_cons] at h
    by_cases hx : p x
    · rw [if_pos hx] at h
      exact ih h
    · rw [if_neg hx] at h
      simp at h
      rw [← h]
      exact Bool.not_eq_true _ ▸ (by simpa using hx)

theorem dropWhile_idem (p : Char → Bool) (l : List Char) :
    (l.dropWhile p).dropWhile p = l.dropWhile p := by
  cases h : l.dropWhile p with
  | nil => rfl
  | cons c u =>
    have hc : p c = false := dropWhile_head_not p l c (by rw [h]; rfl)
    rw [List.dropWhile_cons, if_neg (by simp [hc])]

theorem dropWhile_suffix_exists (p : Char → Bool) (l : List Char) :
    ∃ t, l = t ++ l.dropWhile p := by
  induction l with
  | nil => exact ⟨[], rfl⟩
  | cons x xs ih =>
    rw [List.dropWhile_cons]
    by_cases hx : p x
    · obtain ⟨t, ht⟩ := ih
      rw [if_pos hx]
      exact ⟨x :: t, by rw [List.cons_append, ← ht]⟩
    · rw [if_neg hx]
      exact ⟨[], rfl⟩

theorem trim_idem (cs : List Char) : trimChars (trimChars cs) = trimChars cs := by
  have hB : trimChars cs = ((cs.dropWhile isWS).reverse.dropWhile isWS).reverse := rfl
  set A := cs.dropWhile isWS with hA
  set B := A.reverse.dropWhile isWS with hBdef
  rw [hB]
  show ((B.reverse.dropWhile isWS).reverse.dropWhile isWS).reverse = B.reverse
  have step1 : B.reverse.dropWhile isWS = B.reverse := by
    cases hBr : B.reverse with
    | nil => rfl
    | cons c u =>
      obtain ⟨t, ht⟩ := dropWhile_suffix_exists isWS A.reverse
      have hAeq : A = B.reverse ++ t.reverse := by
        rw [← List.reverse_reverse A]
        rw [show A.reverse = t ++ B from by rw [← hBdef] at ht; exact ht]
        rw [List.reverse_append]
      have hij : A.head? = some c := by
        rw [hAeq, hBr]
        rfl
      have hc : isWS c = false := dropWhile_head_not isWS cs c hij
      rw [List.dropWhile_cons, if_neg (by simp [hc])]
  rw [step1, List.reverse_reverse]
  rw [show B.dropWhile isWS = B from by rw [hBdef]; exact dropWhile_idem isWS A.reverse]

theorem strTrim_idem_name (s : String) : isValidCityNameStr (strTrim s) = isValidCityNameStr s := by
  unfold isValidCityNameStr strTrim
  rw [show (strOfChars (trimChars s.data)).data = trimChars s.data from rfl]
  rw [trim_idem]

theorem digitChar_val (n : ℕ) (h : n < 10) : charDigitVal (digitChar n) = n := by
  interval_cases n <;> decide

theorem digitChar_digit (n : ℕ) : isDigitChar (digitChar n) = true := by
  unfold digitChar
  split <;> decide

theorem natDigits_all (n : ℕ) : ∀ c ∈ natDigits n, isDigitChar c = true := by
  induction n using Nat.strong_induction_on with
  | _ n ih =>
    rw [natDigits]
    split
    · intro c hc
      simp at hc
      rw [hc]
      exact digitChar_digit n
    · intro c hc
      rw [List.mem_append] at hc
      rcases hc with hc | hc
      · exact ih (n / 10) (Nat.div_lt_self (by omega) (by omega)) c hc
      · simp at hc
        rw [hc]
        exact digitChar_digit (n % 10)

theorem natDigits_ne_nil (n : ℕ) : natDigits n ≠ [] := by
  rw [natDigits]
  split
  · simp
  · simp

theorem digitsVal_append_one (xs : List Char) (c : Char) :
    digitsVal (xs ++ [c]) = 10 * digitsVal xs + charDigitVal c := by
  unfold digitsVal
  rw [List.foldl_append]
  rfl

theorem digitsVal_natDigits (n : ℕ) : digitsVal (natDigits n) = n := by
  induction n using Nat.strong_induction_on with
  | _ n ih =>
    rw [natDigits]
    split
    · rename_i h
      show 10 * 0 + charDigitVal (digitChar n) = n
      rw [digitChar_val n h]
      omega
    · rename_i h
      rw [digitsVal_append_one]
      rw [ih (n / 10) (Nat.div_lt_self (by omega) (by omega))]
      rw [digitChar_val (n % 10) (Nat.mod_lt n (by omega))]
      omega

theorem natDigitsPadded_all (k n : ℕ) : ∀ c ∈ natDigitsPadded k n, isDigitChar c = true := by
  induction k generalizing n with
  | zero => intro c hc; simp [natDigitsPadded] at hc
  | succ k ih =>
    intro c hc
    unfold natDigitsPadded at hc
    rw [List.mem_append] at hc
    rcases hc with hc | hc
    · exact ih (n / 10) c hc
    · simp at hc
      rw [hc]
      exact digitChar_digit (n % 10)

theorem natDigitsPadded_length (k n : ℕ) : (natDigitsPadded k n).length = k := by
  induction k generalizing n with
  | zero => rfl
  | succ k ih => simp [natDigitsPadded, ih]

theorem digitsVal_natDigitsPadded (k n : ℕ) : digitsVal (natDigitsPadded k n) = n % 10 ^ k := by
  induction k generalizing n with
  | zero => simp [natDigitsPadded, digitsVal, Nat.mod_one]
  | succ k ih =>
    unfold natDigitsPadded
    rw [digitsVal_append_one, ih (n / 10), digitChar_val (n % 10) (Nat.mod_lt n (by omega))]
    rw [pow_succ, mul_comm (10 ^ k) 10, Nat.mod_mul]
    omega

theorem takeWhile_append_all (p : Char → Bool) (xs ys : List Char)
    (hall : ∀ c ∈ xs, p c = true) (hy : ∀ c, ys.head? = some c → p c = false) :
    (xs ++ ys).takeWhile p = xs ∧ (xs ++ ys).dropWhile p = ys := by
  induction xs with
  | nil =>
    simp only [List.nil_append]
    cases ys with
    | nil => exact ⟨rfl, rfl⟩
    | cons c u =>
      have hc : p c = false := hy c rfl
      rw [List.takeWhile_cons, List.dropWhile_cons]
      simp [hc]
  | cons x xs ih =>
    have hx : p x = true := hall x (by simp)
    have ih2 := ih (fun c hc => hall c (by simp [hc]))
    rw [List.cons_append, List.takeWhile_cons, List.dropWhile_cons]
    simp only [hx, if_true]
    exact ⟨by rw [ih2.1], by rw [ih2.2]⟩

theorem digit_not_ws (c : Char) (h : isDigitChar c = true) : isWS c = false := by
  simp [isDigitChar] at h
  simp [isWS]
  omega

theorem digit_ne_left (d c : Char) (h : isDigitChar c = true)
    (hd : d.toNat < 48 ∨ 57 < d.toNat) : (d == c) = false := by
  simp [isDigitChar] at h
  rw [beq_eq_false_iff_ne]
  intro he
  rw [he] at hd
  omega

theorem digit_ne_right (c d : Char) (h : isDigitChar c = true)
    (hd : d.toNat < 48 ∨ 57 < d.toNat) : (c == d) = false := by
  simp [isDigitChar] at h
  rw [beq_eq_false_iff_ne]
  intro he
  rw [← he] at hd
  omega

theorem parseUnsigned_digits (ds : List Char) (hne : ds ≠ [])
    (hall : ∀ c ∈ ds, isDigitChar c = true) :
    parseUnsigned ds = some ((digitsVal ds : ℚ), []) := by
  have hsplit := takeWhile_append_all isDigitChar ds [] hall (by intro c2 hc2; simp at hc2)
  rw [List.append_nil] at hsplit
  have hemp : ds.isEmpty = false := by
    cases ds with
    | nil => exact absurd rfl hne
    | cons c u => rfl
  simp only [parseUnsigned, hsplit.1, hsplit.2, hemp]
  norm_num [parseExpPart, digitsVal]

theorem parse_digits_only (ds : List Char) (hne : ds ≠ [])
    (hall : ∀ c ∈ ds, isDigitChar c = true) :
    parseFloatChars ds = .fin (digitsVal ds) := by
  obtain ⟨c, u, rfl⟩ : ∃ c u, ds = c :: u := by
    cases ds with
    | nil => exact absurd rfl hne
    | cons c u => exact ⟨c, u, rfl⟩
  have hc : isDigitChar c = true := hall c (by simp)
  have h1 : (c :: u).dropWhile isWS = c :: u := by
    rw [List.dropWhile_cons, if_neg (by simp [digit_not_ws c hc])]
  have hminus : (c == '-') = false := digit_ne_right c '-' hc (by left; decide)
  have hplus : (c == '+') = false := digit_ne_right c '+' hc (by left; decide)
  have hI : ('I' == c) = false := digit_ne_left 'I' c hc (by right; decide)
  have hopt1 : ((some c : Option Char) == some '-') = false := by
    rw [show ((some c : Option Char) == some '-') = (c == '-') from rfl, hminus]
  have hopt2 : ((some c : Option Char) == some '+') = false := by
    rw [show ((some c : Option Char) == some '+') = (c == '+') from rfl, hplus]
  have hinf2 : startsWithChars ['I', 'n', 'f', 'i', 'n', 'i', 't', 'y'] (c :: u) = false := by
    show (('I' == c) && startsWithChars ['n', 'f', 'i', 'n', 'i', 't', 'y'] u) = false
    rw [hI, Bool.false_and]
  simp only [parseFloatChars, h1, List.head?_cons, hopt1, hopt2, Bool.or_self, Bool.false_eq_true,
    if_false, hinf2, parseUnsigned_digits (c :: u) hne hall]

theorem parseUnsigned_digits_dot (ds pad : List Char) (hne : ds ≠ [])
    (hallds : ∀ c ∈ ds, isDigitChar c = true) (hallpad : ∀ c ∈ pad, isDigitChar c = true) :
    parseUnsigned (ds ++ '.' :: pad) =
      some ((digitsVal ds : ℚ) + (digitsVal pad : ℚ) / 10 ^ pad.length, []) := by
  have hsplit := takeWhile_append_all isDigitChar ds ('.' :: pad) hallds
    (by intro c2 hc2; simp at hc2; rw [← hc2]; decide)
  have hsplit2 := takeWhile_append_all isDigitChar pad [] hallpad (by intro c2 hc2; simp at hc2)
  rw [List.append_nil] at hsplit2
  have hemp : ds.isEmpty = false := by
    cases ds with
    | nil => exact absurd rfl hne
    | cons c u => rfl
  simp only [parseUnsigned, hsplit.1, hsplit.2, List.head?_cons, List.tail_cons,
    hsplit2.1, hsplit2.2, hemp]
  norm_num [parseExpPart, digitsVal]

theorem parse_digits_dot (ds pad : List Char) (hne : ds ≠ [])
    (hallds : ∀ c ∈ ds, isDigitChar c = true) (hallpad : ∀ c ∈ pad, isDigitChar c = true) :
    parseFloatChars (ds ++ '.' :: pad) =
      .fin ((digitsVal ds : ℚ) + (digitsVal pad : ℚ) / 10 ^ pad.length) := by
  obtain ⟨c, u, rfl⟩ : ∃ c u, ds = c :: u := by
    cases ds with
    | nil => exact absurd rfl hne
    | cons c u => exact ⟨c, u, rfl⟩
  have hc : isDigitChar c = true := hallds c (by simp)
  have h1 : (c :: (u ++ '.' :: pad)).dropWhile isWS = c :: (u ++ '.' :: pad) := by
    rw [List.dropWhile_cons, if_neg (by simp [digit_not_ws c hc])]
  have hminus : (c == '-') = false := digit_ne_right c '-' hc (by left; decide)
  have hplus : (c == '+') = false := digit_ne_right c '+' hc (by left; decide)
  have hI : ('I' == c) = false := digit_ne_left 'I' c hc (by right; decide)
  have hopt1 : ((some c : Option Char) == some '-') = false := by
    rw [show ((some c : Option Char) == some '-') = (c == '-') from rfl, hminus]
  have hopt2 : ((some c : Option Char) == some '+') = false := by
    rw [show ((some c : Option Char) == some '+') = (c == '+') from rfl, hplus]
  have hinf2 : startsWithChars ['I', 'n', 'f', 'i', 'n', 'i', 't', 'y'] (c :: (u ++ '.' :: pad)) = false := by
    show (('I' == c) && startsWithChars ['n', 'f', 'i', 'n', 'i', 't', 'y'] (u ++ '.' :: pad)) = false
    rw [hI, Bool.false_and]
  have hcons : c :: (u ++ '.' :: pad) = (c :: u) ++ '.' :: pad := rfl
  simp only [parseFloatChars, List.cons_append, h1, List.head?_cons, hopt1, hopt2, Bool.or_self,
    Bool.false_eq_true, if_false, hinf2]
  rw [hcons, parseUnsigned_digits_dot (c :: u) pad hne hallds hallpad]

set_option maxRecDepth 4000 in
theorem parse_jsNumToString (q : ℚ) (hq : 0 ≤ q) :
    parseFloatChars (jsNumToString (.fin q)).data = .fin q ∨
    parseFloatChars (jsNumToString (.fin q)).data = .fin 0 := by
  have hnum : (0 : ℤ) ≤ q.num := Rat.num_nonneg.mpr hq
  have hnlt : ¬ q < 0 := not_lt.mpr hq
  by_cases hden : q.den = 1
  · left
    have hpd : (jsNumToString (.fin q)).data = natDigits q.num.natAbs := by
      simp only [jsNumToString, if_neg hnlt, hden, if_true]
      rfl
    rw [hpd, parse_digits_only _ (natDigits_ne_nil _) (natDigits_all _), digitsVal_natDigits]
    congr 1
    have h2 : (q.num : ℚ) = q := by
      rw [← Rat.num_div_den q, hden]
      norm_num
    have h9 : ((q.num.natAbs : ℕ) : ℤ) = q.num := Int.natAbs_of_nonneg hnum
    have h3 : ((q.num.natAbs : ℕ) : ℚ) = ((q.num : ℤ) : ℚ) := by
      conv_rhs => rw [← h9]
      rw [Int.cast_natCast]
    rw [h3, h2]
  · cases hk : pow10Exp q.den with
    | none =>
      right
      have hs : jsNumToString (.fin q) = "0" := by
        simp only [jsNumToString, if_neg hnlt, hden, if_false, hk]
      rw [hs]
      rw [show ("0").data = ['0'] from rfl]
      rw [parse_digits_only ['0'] (by simp) (by intro c hc; simp at hc; rw [hc]; decide)]
      norm_num [digitsVal, charDigitVal]
      decide
    | some k =>
      left
      have hdvd : q.den ∣ 10 ^ k := by
        have hfind := List.find?_some hk
        exact Nat.dvd_of_mod_eq_zero (by simpa using hfind)
      have hmden : 10 ^ k / q.den * q.den = 10 ^ k := Nat.div_mul_cancel hdvd
      have hpd : (jsNumToString (.fin q)).data =
          natDigits (q.num.natAbs * (10 ^ k / q.den) / 10 ^ k) ++
            '.' :: natDigitsPadded k (q.num.natAbs * (10 ^ k / q.den) % 10 ^ k) := by
        simp only [jsNumToString, if_neg hnlt, hden, if_false, hk]
        rfl
      rw [hpd, parse_digits_dot _ _ (natDigits_ne_nil _) (natDigits_all _) (natDigitsPadded_all k _)]
      rw [digitsVal_natDigits, digitsVal_natDigitsPadded, natDigitsPadded_length]
      congr 1
      have hposk : 0 < 10 ^ k := Nat.pos_pow_of_pos k (by omega)
      have hmm : q.num.natAbs * (10 ^ k / q.den) % 10 ^ k % 10 ^ k =
          q.num.natAbs * (10 ^ k / q.den) % 10 ^ k :=
        Nat.mod_eq_of_lt (Nat.mod_lt _ hposk)
      rw [hmm]
      have hden0 : ((q.den : ℕ) : ℚ) ≠ 0 := by
        exact_mod_cast q.den_nz
      have hnumq : ((q.num.natAbs : ℕ) : ℚ) = q * q.den := by
        have h9 : ((q.num.natAbs : ℕ) : ℤ) = q.num := Int.natAbs_of_nonneg hnum
        have h7 : ((q.num.natAbs : ℕ) : ℚ) = ((q.num : ℤ) : ℚ) := by
          conv_rhs => rw [← h9]
          rw [Int.cast_natCast]
        have h5 : ((q.num : ℤ) : ℚ) = q * q.den := (div_eq_iff hden0).mp (Rat.num_div_den q)
        rw [h7, h5]
      have hmdenq : ((10 : ℚ)) ^ k = ((q.den : ℕ) : ℚ) * ((10 ^ k / q.den : ℕ) : ℚ) := by
        have h8 := congrArg (fun n : ℕ => (n : ℚ)) hmden
        push_cast at h8
        linarith [h8]
      have hdm := Nat.div_add_mod (q.num.natAbs * (10 ^ k / q.den)) (10 ^ k)
      have hdmq : ((10 : ℚ)) ^ k * ((q.num.natAbs * (10 ^ k / q.den) / 10 ^ k : ℕ) : ℚ) +
          ((q.num.natAbs * (10 ^ k / q.den) % 10 ^ k : ℕ) : ℚ) =
          ((q.num.natAbs : ℕ) : ℚ) * ((10 ^ k / q.den : ℕ) : ℚ) := by
        exact_mod_cast congrArg (fun n : ℕ => (n : ℚ)) hdm
      have key : ((q.num.natAbs : ℕ) : ℚ) * ((10 ^ k / q.den : ℕ) : ℚ) = q * (10 : ℚ) ^ k := by
        rw [hnumq, hmdenq]
        ring
      have hP : ((10 : ℚ)) ^ k ≠ 0 := by positivity
      field_simp
      linear_combination hdmq + key

/-- Claim C4 (amended): for every record accepted by the top level gate, the normalized
name satisfies the name predicate, and whenever the raw pollution is a finite number or a
string the normalized pollution is finite in the range zero to one thousand; the
normalized country carries no validity guarantee. -/
theorem c4_normalized_invariant_amended (e : JSVal) (h : isValidCity e = true) :
    isValidCityName (.str (normalizeCity e).name) = true
    ∧ (∀ q : ℚ, getField e "pollution" = .number (.fin q) →
        ∃ r : ℚ, (normalizeCity e).pollution = .fin r ∧ 0 ≤ r ∧ r ≤ 1000)
    ∧ (∀ s : String, getField e "pollution" = .str s →
        ∃ r : ℚ, (normalizeCity e).pollution = .fin r ∧ 0 ≤ r ∧ r ≤ 1000) := by
  rw [isValidCity_eq] at h
  simp only [Bool.and_eq_true] at h
  obtain ⟨⟨⟨⟨⟨hobj, hbool⟩, hname⟩, hpnn⟩, hnv⟩, hpv⟩ := h
  refine ⟨?_, ?_, ?_⟩
  · cases hn : getField e "name" with
    | str s =>
      have hns : isValidCityNameStr s = true := by
        rw [hn] at hnv
        exact hnv
      have hfield : (normalizeCity e).name = strTrim s := by
        rw [show (normalizeCity e).name = strTrim (jsToString (getField e "name")) from rfl, hn]
        rfl
      rw [hfield]
      show isValidCityNameStr (strTrim s) = true
      rw [strTrim_idem_name]
      exact hns
    | undefined => rw [hn] at hnv; simp [isValidCityName] at hnv
    | null => rw [hn] at hnv; simp [isValidCityName] at hnv
    | bool b => rw [hn] at hnv; simp [isValidCityName] at hnv
    | number n => rw [hn] at hnv; simp [isValidCityName] at hnv
    | obj fields => rw [hn] at hnv; simp [isValidCityName] at hnv
    | arr elems => rw [hn] at hnv; simp [isValidCityName] at hnv
  · intro q hq
    have hval : isValidPollutionValue (.number (.fin q)) = true := by
      rw [hq] at hpv
      exact hpv
    have hr := (pollution_num_iff q).mp hval
    have hnorm : (normalizeCity e).pollution = parseFloatChars (jsNumToString (.fin q)).data := by
      rw [show (normalizeCity e).pollution = parseFloatChars (jsToString (getField e "pollution")).data from rfl, hq]
      rfl
    rcases parse_jsNumToString q hr.1 with hres | hres
    · exact ⟨q, by rw [hnorm, hres], hr.1, hr.2⟩
    · exact ⟨0, by rw [hnorm, hres], le_refl 0, by norm_num⟩
  · intro s hs
    have hval : isValidPollutionValue (.str s) = true := by
      rw [hs] at hpv
      exact hpv
    have hnorm : (normalizeCity e).pollution = parseFloatChars s.data := by
      rw [show (normalizeCity e).pollution = parseFloatChars (jsToString (getField e "pollution")).data from rfl, hs]
      rfl
    cases hp : parseFloatChars s.data with
    | fin r =>
      have hr := (pollution_str_iff s r hp).mp hval
      exact ⟨r, by rw [hnorm, hp], hr.1, hr.2⟩
    | nan =>
      rw [pollution_str_eq, hp] at hval
      simp at hval
    | inf =>
      rw [pollution_str_eq, hp] at hval
      simp at hval
    | ninf =>
      rw [pollution_str_eq, hp] at hval
      simp at hval

/-- Claim C4 counterexample: the record with name Berlin and boolean pollution true is
accepted, yet its normalized country is the string undefined, which fails the country
predicate, and its normalized pollution is NaN. -/
theorem c4_normalized_invariant_counterexample :
    isValidCity (.obj [("name", .str "Berlin"), ("pollution", .bool true)]) = true
    ∧ isValidCountry (.str (normalizeCity (.obj [("name", .str "Berlin"), ("pollution", .bool true)])).country) = false
    ∧ (normalizeCity (.obj [("name", .str "Berlin"), ("pollution", .bool true)])).pollution = .nan := by
  refine ⟨by decide, by decide, by decide⟩

theorem parse_513 : parseFloatChars "51.3".data = .fin ((513 : ℚ)/10) := by
  rw [show ("51.3").data = ['5', '1'] ++ '.' :: ['3'] from rfl]
  rw [parse_digits_dot ['5', '1'] ['3'] (by simp) (by decide) (by decide)]
  rw [show digitsVal ['5', '1'] = 51 from by decide, show digitsVal ['3'] = 3 from by decide]
  norm_num

theorem c4city_valid :
    isValidCity (.obj [("name", .str "Berlin"), ("country", .str "Germany"), ("pollution", .str "51.3")]) = true := by
  rw [isValidCity_eq]
  rw [show getField (.obj [("name", .str "Berlin"), ("country", .str "Germany"), ("pollution", .str "51.3")]) "name" = .str "Berlin" from rfl]
  rw [show getField (.obj [("name", .str "Berlin"), ("country", .str "Germany"), ("pollution", .str "51.3")]) "pollution" = .str "51.3" from rfl]
  rw [(pollution_str_iff "51.3" ((513 : ℚ)/10) parse_513).mpr (by norm_num)]
  decide

/-- Witness for the amended claim C4 at a concrete accepted record. -/
theorem c4_normalized_invariant_amended_witness :
    isValidCityName (.str (normalizeCity (.obj [("name", .str "Berlin"), ("country", .str "Germany"), ("pollution", .str "51.3")])).name) = true
    ∧ (∃ r : ℚ, (normalizeCity (.obj [("name", .str "Berlin"), ("country", .str "Germany"), ("pollution", .str "51.3")])).pollution = .fin r ∧ 0 ≤ r ∧ r ≤ 1000) :=
  ⟨(c4_normalized_invariant_amended (.obj [("name", .str "Berlin"), ("country", .str "Germany"), ("pollution", .str "51.3")]) c4city_valid).1,
   (c4_normalized_invariant_amended (.obj [("name", .str "Berlin"), ("country", .str "Germany"), ("pollution", .str "51.3")]) c4city_valid).2.2 "51.3" rfl⟩

def lastDispatchOk (s : QueueState) : Prop :=
  match s.phase with
  | .idle => ∀ x ∈ s.dispatches.getLast?, x.2 + minRequestInterval ≤ s.now
  | .inFlight _ => ∀ x ∈ s.dispatches.getLast?, x.2 ≤ s.now
  | .delaying w => ∀ x ∈ s.dispatches.getLast?, x.2 + minRequestInterval ≤ w

def QInv (s : QueueState) : Prop :=
  (s.isProcessing = false ↔ s.phase = .idle)
  ∧ (s.phase = .idle → s.requestQueue = [])
  ∧ s.dispatches.map Prod.fst ++ s.requestQueue = s.enqueued
  ∧ List.Chain' (fun a b => a.2 + minRequestInterval ≤ b.2) s.dispatches
  ∧ lastDispatchOk s

theorem chain_append_single (d : List (ℕ × ℕ)) (x : ℕ × ℕ)
    (hc : List.Chain' (fun a b => a.2 + minRequestInterval ≤ b.2) d)
    (hl : ∀ y ∈ d.getLast?, y.2 + minRequestInterval ≤ x.2) :
    List.Chain' (fun a b => a.2 + minRequestInterval ≤ b.2) (d ++ [x]) := by
  rw [List.chain'_append]
  refine ⟨hc, List.chain'_singleton x, ?_⟩
  intro y hy z hz
  simp at hz
  rw [← hz]
  exact hl y hy

theorem qstep_inv {s s2 : QueueState} (hstep : QStep s s2) (hinv : QInv s) : QInv s2 := by
  obtain ⟨hflag, hidleq, hfifo, hchain, hlast⟩ := hinv
  cases hstep with
  | enqueueIdle id t ht hp =>
    have hphase : s.phase = .idle := hflag.mp hp
    have hq : s.requestQueue = [] := hidleq hphase
    have hlast2 : ∀ x ∈ s.dispatches.getLast?, x.2 + minRequestInterval ≤ s.now := by
      rw [lastDispatchOk, hphase] at hlast
      exact hlast
    rw [hq]
    refine ⟨by simp, by simp, ?_, ?_, ?_⟩
    · simp only [List.nil_append, List.headD, List.tail]
      rw [List.map_append]
      simp only [List.map_cons, List.map_nil]
      rw [← hfifo]
      simp [hq]
    · simp only [List.nil_append, List.headD]
      exact chain_append_single s.dispatches (id, t) hchain
        (fun y hy => le_trans (hlast2 y hy) (by omega))
    · rw [lastDispatchOk]
      simp only [List.nil_append, List.headD]
      intro x hx
      rw [List.getLast?_concat] at hx
      simp at hx
      rw [← hx]
  | enqueueBusy id t ht hp =>
    have hphase : ¬ s.phase = .idle := by
      intro hcon
      rw [hflag.mpr hcon] at hp
      exact Bool.noConfusion hp
    refine ⟨?_, ?_, ?_, hchain, ?_⟩
    · simp only
      constructor
      · intro hcon
        rw [hcon] at hp
        exact absurd hp (by simp)
      · intro hcon
        exact absurd hcon hphase
    · intro hcon
      exact absurd hcon hphase
    · simp only
      rw [← List.append_assoc, hfifo]
    · rw [lastDispatchOk]
      simp only
      cases hph : s.phase with
      | idle => exact absurd hph hphase
      | inFlight id2 =>
        rw [lastDispatchOk, hph] at hlast
        intro x hx
        exact le_trans (hlast x hx) ht
      | delaying w =>
        rw [lastDispatchOk, hph] at hlast
        exact hlast
  | complete id t ht hp =>
    refine ⟨?_, ?_, hfifo, hchain, ?_⟩
    · simp only
      constructor
      · intro hcon
        rw [hflag] at hcon
        rw [hcon] at hp
        exact DrainPhase.noConfusion hp
      · intro hcon
        exact DrainPhase.noConfusion hcon
    · intro hcon
      exact DrainPhase.noConfusion hcon
    · rw [lastDispatchOk]
      simp only
      rw [lastDispatchOk, hp] at hlast
      intro x hx
      have := hlast x hx
      omega
  | wakeDispatch w t h tl ht hw hq =>
    have hproc : s.isProcessing = true := by
      cases hpr : s.isProcessing with
      | false => rw [hflag.mp hpr] at hw; exact DrainPhase.noConfusion hw
      | true => rfl
    rw [lastDispatchOk, hw] at hlast
    refine ⟨?_, ?_, ?_, ?_, ?_⟩
    · simp only [hproc]
      constructor
      · intro hcon
        exact Bool.noConfusion hcon
      · intro hcon
        exact DrainPhase.noConfusion hcon
    · intro hcon
      exact DrainPhase.noConfusion hcon
    · simp only
      rw [List.map_append]
      simp only [List.map_cons, List.map_nil]
      rw [List.append_assoc]
      simp only [List.singleton_append]
      rw [← hq, hfifo]
    · exact chain_append_single s.dispatches (h, t) hchain
        (fun y hy => le_trans (hlast y hy) ht)
    · rw [lastDispatchOk]
      simp only
      intro x hx
      rw [List.getLast?_concat] at hx
      simp at hx
      rw [← hx]
  | wakeIdle w t ht hw hq =>
    rw [lastDispatchOk, hw] at hlast
    refine ⟨by simp, by simp [hq], hfifo, hchain, ?_⟩
    · rw [lastDispatchOk]
      simp only
      intro x hx
      exact le_trans (hlast x hx) (by omega)

theorem qreach_inv (s : QueueState) (h : QReach s) : QInv s := by
  induction h with
  | init =>
    refine ⟨by simp [initQ], by simp [initQ], by simp [initQ], by simp [initQ], ?_⟩
    rw [lastDispatchOk]
    simp [initQ]
  | step hr hs ih => exact qstep_inv hs ih

/-- Claim C5: in every reachable state of the request queue, consecutive dispatches are
spaced by at least minRequestInterval, the dispatch order extended by the pending backlog
equals the enqueue order, at most one lookup is in flight, and the isProcessing flag is
set exactly while a drain loop is running. -/
theorem c5_queue_discipline (s : QueueState) (h : QReach s) :
    List.Chain' (fun a b => a.2 + minRequestInterval ≤ b.2) s.dispatches
    ∧ s.dispatches.map Prod.fst ++ s.requestQueue = s.enqueued
    ∧ inFlightCount s ≤ 1
    ∧ (s.isProcessing = false ↔ s.phase = .idle) := by
  obtain ⟨hflag, hidleq, hfifo, hchain, hlast⟩ := qreach_inv s h
  refine ⟨hchain, hfifo, ?_, hflag⟩
  cases hph : s.phase <;> simp [inFlightCount, hph]

/-- Witness for claim C5 at the state reached by one enqueue from start-up. -/
theorem c5_queue_discipline_witness :
    List.Chain' (fun a b => a.2 + minRequestInterval ≤ b.2)
        ((⟨[], true, .inFlight 7, 3, [(7, 3)], [7]⟩ : QueueState)).dispatches
    ∧ ((⟨[], true, .inFlight 7, 3, [(7, 3)], [7]⟩ : QueueState)).dispatches.map Prod.fst ++
        ((⟨[], true, .inFlight 7, 3, [(7, 3)], [7]⟩ : QueueState)).requestQueue =
        ((⟨[], true, .inFlight 7, 3, [(7, 3)], [7]⟩ : QueueState)).enqueued
    ∧ inFlightCount (⟨[], true, .inFlight 7, 3, [(7, 3)], [7]⟩ : QueueState) ≤ 1
    ∧ (((⟨[], true, .inFlight 7, 3, [(7, 3)], [7]⟩ : QueueState)).isProcessing = false ↔
        ((⟨[], true, .inFlight 7, 3, [(7, 3)], [7]⟩ : QueueState)).phase = .idle) :=
  c5_queue_discipline (⟨[], true, .inFlight 7, 3, [(7, 3)], [7]⟩ : QueueState)
    (QReach.step QReach.init (QStep.enqueueIdle initQ 7 3 (Nat.zero_le 3) rfl))

/-- Claim C6: the pollution predicate accepts a finite number exactly when it lies in the
closed range zero to one thousand, accepts a string exactly when parseFloat yields such a
finite value, rejects NaN and infinite coercions, and the record level gate agrees;
the boundaries are accepted and the values just outside are rejected. -/
theorem c6_pollution_range :
    (∀ q : ℚ, isValidPollutionValue (.number (.fin q)) = true ↔ (0 ≤ q ∧ q ≤ 1000))
    ∧ (∀ (s : String) (q : ℚ), parseFloatChars s.data = .fin q →
        (isValidPollutionValue (.str s) = true ↔ (0 ≤ q ∧ q ≤ 1000)))
    ∧ (∀ s : String,
        (parseFloatChars s.data = .nan ∨ parseFloatChars s.data = .inf ∨
          parseFloatChars s.data = .ninf) → isValidPollutionValue (.str s) = false)
    ∧ (∀ q : ℚ, isValidCity (.obj [("name", .str "Berlin"), ("pollution", .number (.fin q))]) = true
        ↔ (0 ≤ q ∧ q ≤ 1000))
    ∧ isValidPollutionValue (.number (.fin (-1/10))) = false
    ∧ isValidPollutionValue (.number (.fin (10001/10))) = false
    ∧ isValidPollutionValue (.number (.fin 0)) = true
    ∧ isValidPollutionValue (.number (.fin 1000)) = true := by
  refine ⟨pollution_num_iff, pollution_str_iff, pollution_str_nonfin, record_pollution_iff,
    ?_, ?_, ?_, ?_⟩
  · cases hb : isValidPollutionValue (.number (.fin (-1/10))) with
    | false => rfl
    | true =>
      have h := (pollution_num_iff (-1/10)).mp hb
      norm_num at h
  · cases hb : isValidPollutionValue (.number (.fin (10001/10))) with
    | false => rfl
    | true =>
      have h := (pollution_num_iff (10001/10)).mp hb
      norm_num at h
  · exact (pollution_num_iff 0).mpr (by norm_num)
  · exact (pollution_num_iff 1000).mpr (by norm_num)

/-- Witness for claim C6 at the numeric string 51.3. -/
theorem c6_pollution_range_witness :
    isValidPollutionValue (.str "51.3") = true ↔ (0 ≤ ((513 : ℚ)/10) ∧ ((513 : ℚ)/10) ≤ 1000) :=
  c6_pollution_range.2.1 "51.3" ((513 : ℚ)/10) parse_513

/-- Claim C1 (code bug): with the negative sentinel null cached under the lowercased key,
getCityDescription still dispatches all three variant lookups, although the source comment
says the cached null avoids repeated requests; a truthy cached value is returned at once
with no outbound lookup. -/
theorem c1_cached_sentinel_still_probes :
    (getCityDescription [(descCacheKey "Berlin" "Germany", JSVal.null)] "Berlin" "Germany"
      (fun _ => FetchOutcome.notFound)).2.1 = ["Berlin", "Berlin, Germany", "Berlin Germany"]
    ∧ (getCityDescription [(descCacheKey "Berlin" "Germany", JSVal.str "desc")] "Berlin" "Germany"
        (fun _ => FetchOutcome.notFound)).2.1 = []
    ∧ (getCityDescription [(descCacheKey "Berlin" "Germany", JSVal.str "desc")] "Berlin" "Germany"
        (fun _ => FetchOutcome.notFound)).1 = JSVal.str "desc" := by
  refine ⟨by decide, by decide, ?_⟩
  rfl

/-- Claim C10: filterValidCities returns the empty list on every non array input. -/
theorem c10_non_array_empty (v : JSVal) (h : isArrayVal v = false) : filterValidCities v = [] := by
  cases v <;> first | rfl | simp [isArrayVal] at h

/-- Witness for claim C10 at the null input. -/
theorem c10_non_array_empty_witness : filterValidCities JSVal.null = [] := c10_non_array_empty JSVal.null rfl

/-- Claim C3 counterexample: when the first variant rejects with an error that is not a
404, the call still dispatches the remaining two variants instead of stopping after one. -/
theorem c3_error_continues_counterexample :
    fetchResult ((fun i => if i == 0 then FetchOutcome.err else FetchOutcome.notFound) 0) = .error ()
    ∧ (getCityDescription [] "Berlin" "Germany"
        (fun i => if i == 0 then FetchOutcome.err else FetchOutcome.notFound)).2.1
      = ["Berlin", "Berlin, Germany", "Berlin Germany"]
    ∧ ["Berlin", "Berlin, Germany", "Berlin Germany"] ≠ (["Berlin"] : List String) := by
  refine ⟨rfl, by decide, by decide⟩

/-- Claim C9: a set cancels any previously scheduled removal for the key, so only the
latest TTL governs: an untimed write followed by a 50 millisecond write expires, and a
timed write followed by an untimed write persists through any delay. -/
theorem c9_set_cancels_stale_timer (k : String) (v1 v2 : JSVal) (ttl0 : Option ℕ) (t : ℕ) :
    cacheGetOp (elapse (cacheSetOp (cacheSetOp emptyCacheState k v1 none) k v2 (some 50)) (50 + t)) k = none
    ∧ cacheGetOp (elapse (cacheSetOp (cacheSetOp emptyCacheState k v1 ttl0) k v2 none) t) k = some v2 := by
  constructor
  · simp [emptyCacheState, cacheSetOp, assocErase, assocSet, elapse, cacheDeleteOp, cacheGetOp,
      List.lookup, List.filter]
  · rcases ttl0 with _ | t0
    · simp [emptyCacheState, cacheSetOp, assocErase, assocSet, elapse, cacheDeleteOp, cacheGetOp,
        List.lookup, List.filter]
    · by_cases h0 : 0 < t0 <;>
        simp [emptyCacheState, cacheSetOp, assocErase, assocSet, elapse, cacheDeleteOp, cacheGetOp,
          List.lookup, List.filter, h0]

/-- Claim C8: the top level gate accepts exactly the object records with truthy name,
present non null pollution, valid name and valid pollution; the country predicate is
never consulted, so records with an invalid or absent country are still accepted. -/
theorem c8_acceptance_characterization :
    (∀ e : JSVal, isValidCity e =
      (isObjectType e && jsToBool e && jsToBool (getField e "name") &&
        !isUndefOrNull (getField e "pollution") && isValidCityName (getField e "name") &&
        isValidPollutionValue (getField e "pollution")))
    ∧ isValidCountry (.str "XX") = false
    ∧ isValidCity (.obj [("name", .str "Berlin"), ("country", .str "XX"), ("pollution", .number (.fin 10))]) = true
    ∧ isValidCountry (getField (.obj [("name", .str "Munich"), ("pollution", .number (.fin 5))]) "country") = false
    ∧ isValidCity (.obj [("name", .str "Munich"), ("pollution", .number (.fin 5))]) = true :=
  ⟨isValidCity_eq, by decide, by decide, by decide, by decide⟩
